import Mathlib

/-!
Shallow embedding of the roguelike dungeon core (src/main.rs).

The map is a fixed-size grid of tiles, modelled as a total function
`Int → Int → Tile` over the constant dimensions `MAP_WIDTH × MAP_HEIGHT`
(the Rust code stores it as `Vec<Vec<Tile>>` indexed `[x][y]`; all tile
writes performed by the generator are in bounds, which is proved below).
The random sampling in `make_map` is modelled by an explicit list of
`RoomChoice` values, one per loop iteration, each constrained by
`RoomChoice.valid` to the exact ranges drawn by `gen_range`; the coin
flip `rand::random()` is the `coin` field.  `GenState.tunnels` is a
ghost field recording which tunnel segments the generator carved; it
does not influence the computation of the map itself.
-/

def MAP_WIDTH : Int := 80

def MAP_HEIGHT : Int := 45

def ROOM_MAX_SIZE : Int := 10

def ROOM_MIN_SIZE : Int := 6

def MAX_ROOMS : Nat := 30

structure Tile where
  blocked : Bool
  block_sight : Bool
deriving DecidableEq, Repr

def Tile.empty : Tile := { blocked := false, block_sight := false }

def Tile.wall : Tile := { blocked := true, block_sight := true }

def GameMap : Type := Int → Int → Tile

/-- writing one tile of the grid (`map[x][y] = t` in the Rust code) -/
def setTile (m : GameMap) (x y : Int) (t : Tile) : GameMap :=
  fun a b => if a = x ∧ b = y then t else m a b

def inBounds (x y : Int) : Prop :=
  0 ≤ x ∧ x < MAP_WIDTH ∧ 0 ≤ y ∧ y < MAP_HEIGHT

instance (x y : Int) : Decidable (inBounds x y) := by
  unfold inBounds MAP_WIDTH MAP_HEIGHT; infer_instance

structure Rect where
  x1 : Int
  y1 : Int
  x2 : Int
  y2 : Int
deriving DecidableEq, Repr

def Rect.new (x y w h : Int) : Rect :=
  { x1 := x, y1 := y, x2 := x + w, y2 := y + h }

/-- integer midpoint; Rust `i32` division truncates toward zero, hence `Int.tdiv` -/
def Rect.center (r : Rect) : Int × Int :=
  (Int.tdiv (r.x1 + r.x2) 2, Int.tdiv (r.y1 + r.y2) 2)

def Rect.intersects_with (r other : Rect) : Bool :=
  decide (r.x1 ≤ other.x2) && decide (r.x2 ≥ other.x1) &&
    decide (r.y1 ≤ other.y2) && decide (r.y2 ≥ other.y1)

/-- the list of integers `lo, lo+1, ..., hi-1`, i.e. the Rust range `lo..hi` -/
def intRange (lo hi : Int) : List Int :=
  (List.range (hi - lo).toNat).map fun (i : Nat) => lo + (i : Int)

def create_room (room : Rect) (m : GameMap) : GameMap :=
  (intRange (room.x1 + 1) room.x2).foldl
    (fun acc x =>
      (intRange (room.y1 + 1) room.y2).foldl
        (fun acc2 y => setTile acc2 x y Tile.empty) acc)
    m

def create_h_tunnel (x1 x2 y : Int) (m : GameMap) : GameMap :=
  (intRange (min x1 x2) (max x1 x2 + 1)).foldl
    (fun acc x => setTile acc x y Tile.empty) m

def create_v_tunnel (y1 y2 x : Int) (m : GameMap) : GameMap :=
  (intRange (min y1 y2) (max y1 y2 + 1)).foldl
    (fun acc y => setTile acc x y Tile.empty) m

/-- one iteration's worth of random draws in `make_map` -/
structure RoomChoice where
  w : Int
  h : Int
  x : Int
  y : Int
  coin : Bool
deriving DecidableEq, Repr

/-- the ranges guaranteed by the `gen_range` calls in `make_map`:
`w, h ∈ [ROOM_MIN_SIZE, ROOM_MAX_SIZE]`, `x ∈ [0, MAP_WIDTH - w)`,
`y ∈ [0, MAP_HEIGHT - h)` -/
def RoomChoice.valid (c : RoomChoice) : Prop :=
  ROOM_MIN_SIZE ≤ c.w ∧ c.w < ROOM_MAX_SIZE + 1 ∧
  ROOM_MIN_SIZE ≤ c.h ∧ c.h < ROOM_MAX_SIZE + 1 ∧
  0 ≤ c.x ∧ c.x < MAP_WIDTH - c.w ∧
  0 ≤ c.y ∧ c.y < MAP_HEIGHT - c.h

instance (c : RoomChoice) : Decidable c.valid := by
  unfold RoomChoice.valid MAP_WIDTH MAP_HEIGHT ROOM_MIN_SIZE ROOM_MAX_SIZE
  infer_instance

/-- ghost record of one carved tunnel segment -/
inductive Tunnel where
  | h (x1 x2 y : Int)
  | v (y1 y2 x : Int)
deriving DecidableEq, Repr

/-- the cells a tunnel segment carves (both endpoints included) -/
def Tunnel.covers : Tunnel → Int → Int → Prop
  | .h x1 x2 y, a, b => min x1 x2 ≤ a ∧ a ≤ max x1 x2 ∧ b = y
  | .v y1 y2 x, a, b => a = x ∧ min y1 y2 ≤ b ∧ b ≤ max y1 y2

instance (t : Tunnel) (a b : Int) : Decidable (t.covers a b) := by
  cases t <;> (unfold Tunnel.covers; infer_instance)

/-- the interior cells carved by `create_room` -/
def Rect.interior (r : Rect) (a b : Int) : Prop :=
  r.x1 + 1 ≤ a ∧ a < r.x2 ∧ r.y1 + 1 ≤ b ∧ b < r.y2

instance (r : Rect) (a b : Int) : Decidable (r.interior a b) := by
  unfold Rect.interior; infer_instance

/-- state of the room-placement loop in `make_map`; `tunnels` is ghost -/
structure GenState where
  map : GameMap
  rooms : List Rect
  starting_position : Int × Int
  tunnels : List Tunnel

def initState : GenState :=
  { map := fun _ _ => Tile.wall, rooms := [], starting_position := (0, 0),
    tunnels := [] }

/-- the body of the `for _ in 0..MAX_ROOMS` loop in `make_map` -/
def make_map_step (s : GenState) (c : RoomChoice) : GenState :=
  let new_room := Rect.new c.x c.y c.w c.h
  let failed := s.rooms.any fun other_room => new_room.intersects_with other_room
  if failed then s
  else
    let map1 := create_room new_room s.map
    let new_x := new_room.center.1
    let new_y := new_room.center.2
    match s.rooms.getLast? with
    | none =>
        { map := map1, rooms := s.rooms ++ [new_room],
          starting_position := (new_x, new_y), tunnels := s.tunnels }
    | some prev_room =>
        let prev_x := prev_room.center.1
        let prev_y := prev_room.center.2
        if c.coin then
          { map := create_v_tunnel prev_y new_y new_x
                     (create_h_tunnel prev_x new_x prev_y map1),
            rooms := s.rooms ++ [new_room],
            starting_position := s.starting_position,
            tunnels := s.tunnels ++
              [Tunnel.h prev_x new_x prev_y, Tunnel.v prev_y new_y new_x] }
        else
          { map := create_h_tunnel prev_x new_x new_y
                     (create_v_tunnel prev_y new_y prev_x map1),
            rooms := s.rooms ++ [new_room],
            starting_position := s.starting_position,
            tunnels := s.tunnels ++
              [Tunnel.v prev_y new_y prev_x, Tunnel.h prev_x new_x new_y] }

/-- `make_map`, parameterised by the list of random draws (one per loop
iteration; the Rust loop makes exactly `MAX_ROOMS` of them) -/
def make_map (choices : List RoomChoice) : GenState :=
  choices.foldl make_map_step initState

structure Color where
  r : Nat
  g : Nat
  b : Nat
deriving DecidableEq, Repr

structure Object where
  x : Int
  y : Int
  char : Char
  color : Color
deriving DecidableEq, Repr

def Object.new (x y : Int) (char : Char) (color : Color) : Object :=
  { x := x, y := y, char := char, color := color }

/-- `Object::move_by`; the grid is `MAP_WIDTH × MAP_HEIGHT`, and indexing a
`Vec` outside its bounds aborts the program, modelled here as `none` -/
def Object.move_by (o : Object) (dx dy : Int) (map : GameMap) : Option Object :=
  if inBounds (o.x + dx) (o.y + dy) then
    if (map (o.x + dx) (o.y + dy)).blocked then some o
    else some { o with x := o.x + dx, y := o.y + dy }
  else none

/-- the key events `handle_keys` distinguishes -/
inductive KeyAction where
  | altEnter
  | escape
  | up
  | down
  | left
  | right
  | other
deriving DecidableEq, Repr

/-- `handle_keys`: returns the updated player and the exit flag (`none`
models an aborted out-of-bounds tile access inside `move_by`) -/
def handle_keys (k : KeyAction) (player : Object) (map : GameMap) :
    Option (Object × Bool) :=
  match k with
  | .altEnter => some (player, false)
  | .escape => some (player, true)
  | .up => (player.move_by 0 (-1) map).map fun p => (p, false)
  | .down => (player.move_by 0 1 map).map fun p => (p, false)
  | .left => (player.move_by (-1) 0 map).map fun p => (p, false)
  | .right => (player.move_by 1 0 map).map fun p => (p, false)
  | .other => some (player, false)

/-- the per-iteration state of the main loop; `fov` is the libtcod field
of view datum, kept abstract as a type parameter -/
structure LoopState (α : Type) where
  prevPos : Int × Int
  player : Object
  fov : α
deriving DecidableEq

/-- one iteration of the `while !root.window_closed()` loop in `main`:
decide whether to recompute the field of view, render (which recomputes
it exactly when the flag is set), record the previous position, then
handle the key event.  Returns the new state, whether `compute_fov` ran
(ghost), and the exit flag. -/
def loopIter {α : Type} (computeFov : GameMap → Int × Int → α)
    (map : GameMap) (k : KeyAction) (s : LoopState α) :
    Option (LoopState α × Bool × Bool) :=
  let fov_recompute := decide (s.prevPos ≠ (s.player.x, s.player.y))
  let fov1 := if fov_recompute then computeFov map (s.player.x, s.player.y)
              else s.fov
  let prev1 := (s.player.x, s.player.y)
  match handle_keys k s.player map with
  | none => none
  | some (p1, exit) =>
      some ({ prevPos := prev1, player := p1, fov := fov1 }, fov_recompute, exit)

/-- cells carved so far: some accepted room's interior or some carved
tunnel segment -/
def carvedAt (rooms : List Rect) (tunnels : List Tunnel) (a b : Int) : Prop :=
  (∃ r ∈ rooms, r.interior a b) ∨ (∃ t ∈ tunnels, t.covers a b)

/-- the shape every accepted room has: sampled size in range, placed in
bounds with a one-tile margin on the high side -/
def Rect.wf (r : Rect) : Prop :=
  0 ≤ r.x1 ∧ r.x1 + ROOM_MIN_SIZE ≤ r.x2 ∧ r.x2 ≤ MAP_WIDTH - 1 ∧
  0 ≤ r.y1 ∧ r.y1 + ROOM_MIN_SIZE ≤ r.y2 ∧ r.y2 ≤ MAP_HEIGHT - 1

/-- a tunnel segment that stays strictly inside the map border -/
def Tunnel.inBox : Tunnel → Prop
  | .h x1 x2 y => 1 ≤ min x1 x2 ∧ max x1 x2 ≤ MAP_WIDTH - 2 ∧
      1 ≤ y ∧ y ≤ MAP_HEIGHT - 2
  | .v y1 y2 x => 1 ≤ x ∧ x ≤ MAP_WIDTH - 2 ∧
      1 ≤ min y1 y2 ∧ max y1 y2 ≤ MAP_HEIGHT - 2

/-- four-neighbour adjacency on the grid -/
def adjacent (p q : Int × Int) : Prop :=
  (p.1 - q.1).natAbs + (p.2 - q.2).natAbs = 1

/-- reachability through unblocked tiles: every tile stepped onto along
the path is passable -/
inductive Reachable (m : GameMap) : Int × Int → Int × Int → Prop where
  | refl (p : Int × Int) : Reachable m p p
  | step {p q r : Int × Int} : Reachable m p q → adjacent q r →
      (m r.1 r.2).blocked = false → Reachable m p r

/-- invariant of the placement loop that holds for every draw list,
valid or not: the map is exactly the carved set painted over walls,
accepted rooms are pairwise non-intersecting, the first accepted room's
center is the spawn point, and before any acceptance the state is
untouched -/
structure LightInv (s : GenState) : Prop where
  carved_empty : ∀ a b, carvedAt s.rooms s.tunnels a b → s.map a b = Tile.empty
  uncarved_wall : ∀ a b, ¬ carvedAt s.rooms s.tunnels a b → s.map a b = Tile.wall
  pairwise_ok : s.rooms.Pairwise fun r1 r2 => r1.intersects_with r2 = false
  spawn_eq : ∀ r, s.rooms.head? = some r → s.starting_position = r.center
  empty_start : s.rooms = [] → s = initState

/-- invariant of the placement loop under valid draws: rooms are well
shaped, ghost tunnels stay inside the border, the spawn tile is
passable once a room exists, and every accepted room's center is
reachable from the spawn point -/
structure FullInv (s : GenState) : Prop where
  light : LightInv s
  wf_rooms : ∀ r ∈ s.rooms, r.wf
  tunnels_box : ∀ t ∈ s.tunnels, t.inBox
  spawn_pass : s.rooms ≠ [] →
      (s.map s.starting_position.1 s.starting_position.2).blocked = false
  reach : ∀ r ∈ s.rooms, Reachable s.map s.starting_position r.center

/-- a concrete draw list: two valid, non-overlapping rooms -/
def demoChoices : List RoomChoice :=
  [{ w := 6, h := 6, x := 0, y := 0, coin := true },
   { w := 6, h := 6, x := 20, y := 20, coin := true }]

def demoMap : GameMap := (make_map demoChoices).map

def demoObject : Object :=
  Object.new 3 3 '@' { r := 255, g := 255, b := 255 }

lemma mem_intRange {lo hi a : Int} : a ∈ intRange lo hi ↔ lo ≤ a ∧ a < hi := by
  unfold intRange
  constructor
  · intro hmem
    rcases List.mem_map.mp hmem with ⟨i, hi2, rfl⟩
    have hlt := List.mem_range.mp hi2
    omega
  · intro h
    exact List.mem_map.mpr
      ⟨(a - lo).toNat, List.mem_range.mpr (by omega), by omega⟩

lemma setTile_apply (m : GameMap) (x y : Int) (t : Tile) (a b : Int) :
    setTile m x y t a b = if a = x ∧ b = y then t else m a b := rfl

lemma foldl_row_apply (L : List Int) (y : Int) (m : GameMap) (a b : Int) :
    (L.foldl (fun acc x => setTile acc x y Tile.empty) m) a b =
      if a ∈ L ∧ b = y then Tile.empty else m a b := by
  induction L generalizing m with
  | nil => simp
  | cons x xs ih =>
      rw [List.foldl_cons, ih]
      simp only [setTile, List.mem_cons]
      by_cases hA : a ∈ xs ∧ b = y
      · have hC : (a = x ∨ a ∈ xs) ∧ b = y := ⟨Or.inr hA.1, hA.2⟩
        simp [hA, hC]
      · by_cases hB : a = x ∧ b = y
        · have hC : (a = x ∨ a ∈ xs) ∧ b = y := ⟨Or.inl hB.1, hB.2⟩
          simp [hA, hB, hC]
        · have hC : ¬ ((a = x ∨ a ∈ xs) ∧ b = y) := by tauto
          simp [hA, hB, hC]

lemma foldl_col_apply (L : List Int) (x : Int) (m : GameMap) (a b : Int) :
    (L.foldl (fun acc y => setTile acc x y Tile.empty) m) a b =
      if a = x ∧ b ∈ L then Tile.empty else m a b := by
  induction L generalizing m with
  | nil => simp
  | cons y ys ih =>
      rw [List.foldl_cons, ih]
      simp only [setTile, List.mem_cons]
      by_cases hA : a = x ∧ b ∈ ys
      · have hC : a = x ∧ (b = y ∨ b ∈ ys) := ⟨hA.1, Or.inr hA.2⟩
        simp [hA, hC]
      · by_cases hB : a = x ∧ b = y
        · have hC : a = x ∧ (b = y ∨ b ∈ ys) := ⟨hB.1, Or.inl hB.2⟩
          simp [hA, hB, hC]
        · have hC : ¬ (a = x ∧ (b = y ∨ b ∈ ys)) := by tauto
          simp [hA, hB, hC]

lemma create_h_tunnel_apply (x1 x2 y : Int) (m : GameMap) (a b : Int) :
    create_h_tunnel x1 x2 y m a b =
      if min x1 x2 ≤ a ∧ a ≤ max x1 x2 ∧ b = y then Tile.empty else m a b := by
  unfold create_h_tunnel
  rw [foldl_row_apply]
  by_cases h : min x1 x2 ≤ a ∧ a ≤ max x1 x2 ∧ b = y
  · rw [if_pos ⟨mem_intRange.mpr ⟨h.1, by omega⟩, h.2.2⟩, if_pos h]
  · rw [if_neg, if_neg h]
    rintro ⟨hm, hb⟩
    rw [mem_intRange] at hm
    exact h ⟨hm.1, by omega, hb⟩

lemma create_v_tunnel_apply (y1 y2 x : Int) (m : GameMap) (a b : Int) :
    create_v_tunnel y1 y2 x m a b =
      if a = x ∧ min y1 y2 ≤ b ∧ b ≤ max y1 y2 then Tile.empty else m a b := by
  unfold create_v_tunnel
  rw [foldl_col_apply]
  by_cases h : a = x ∧ min y1 y2 ≤ b ∧ b ≤ max y1 y2
  · rw [if_pos ⟨h.1, mem_intRange.mpr ⟨h.2.1, by omega⟩⟩, if_pos h]
  · rw [if_neg, if_neg h]
    rintro ⟨ha, hm⟩
    rw [mem_intRange] at hm
    exact h ⟨ha, hm.1, by omega⟩

lemma foldl_box_apply (Lx Ly : List Int) (m : GameMap) (a b : Int) :
    (Lx.foldl
      (fun acc x => Ly.foldl (fun acc2 y => setTile acc2 x y Tile.empty) acc)
      m) a b =
      if a ∈ Lx ∧ b ∈ Ly then Tile.empty else m a b := by
  induction Lx generalizing m with
  | nil => simp
  | cons x xs ih =>
      rw [List.foldl_cons, ih, foldl_col_apply]
      simp only [List.mem_cons]
      by_cases hA : a ∈ xs ∧ b ∈ Ly
      · have hC : (a = x ∨ a ∈ xs) ∧ b ∈ Ly := ⟨Or.inr hA.1, hA.2⟩
        simp [hA, hC]
      · by_cases hB : a = x ∧ b ∈ Ly
        · have hC : (a = x ∨ a ∈ xs) ∧ b ∈ Ly := ⟨Or.inl hB.1, hB.2⟩
          simp [hA, hB, hC]
        · have hC : ¬ ((a = x ∨ a ∈ xs) ∧ b ∈ Ly) := by tauto
          simp [hA, hB, hC]

lemma create_room_apply (r : Rect) (m : GameMap) (a b : Int) :
    create_room r m a b =
      if r.interior a b then Tile.empty else m a b := by
  unfold create_room
  rw [foldl_box_apply]
  by_cases h : r.interior a b
  · rw [if_pos, if_pos h]
    exact ⟨mem_intRange.mpr ⟨h.1, h.2.1⟩, mem_intRange.mpr ⟨h.2.2.1, h.2.2.2⟩⟩
  · rw [if_neg, if_neg h]
    rintro ⟨hx, hy⟩
    rw [mem_intRange] at hx hy
    exact h ⟨hx.1, hx.2, hy.1, hy.2⟩

lemma center_fst (r : Rect) : r.center.1 = Int.tdiv (r.x1 + r.x2) 2 := rfl

lemma center_snd (r : Rect) : r.center.2 = Int.tdiv (r.y1 + r.y2) 2 := rfl

lemma intersects_true_iff (r1 r2 : Rect) :
    r1.intersects_with r2 = true ↔
      r1.x1 ≤ r2.x2 ∧ r1.x2 ≥ r2.x1 ∧ r1.y1 ≤ r2.y2 ∧ r1.y2 ≥ r2.y1 := by
  unfold Rect.intersects_with
  simp [Bool.and_eq_true, decide_eq_true_eq, and_assoc]

lemma intersects_with_comm (r1 r2 : Rect) :
    r1.intersects_with r2 = r2.intersects_with r1 := by
  rw [Bool.eq_iff_iff, intersects_true_iff, intersects_true_iff]
  constructor <;> (rintro ⟨h1, h2, h3, h4⟩; exact ⟨h2, h1, h4, h3⟩)

lemma valid_new_wf (c : RoomChoice) (hc : c.valid) :
    (Rect.new c.x c.y c.w c.h).wf := by
  unfold RoomChoice.valid at hc
  unfold Rect.new Rect.wf
  unfold MAP_WIDTH MAP_HEIGHT ROOM_MIN_SIZE ROOM_MAX_SIZE at *
  dsimp only
  omega

lemma center_mem_interior (r : Rect) (hr : r.wf) :
    r.interior r.center.1 r.center.2 := by
  obtain ⟨h1, h2, h3, h4, h5, h6⟩ := hr
  unfold ROOM_MIN_SIZE at h2 h5
  have e1 : Int.tdiv (r.x1 + r.x2) 2 = (r.x1 + r.x2) / 2 :=
    Int.tdiv_eq_ediv (by omega) (by omega)
  have e2 : Int.tdiv (r.y1 + r.y2) 2 = (r.y1 + r.y2) / 2 :=
    Int.tdiv_eq_ediv (by omega) (by omega)
  unfold Rect.interior
  rw [center_fst, center_snd, e1, e2]
  omega

lemma interior_in_box (r : Rect) (hr : r.wf) (a b : Int)
    (h : r.interior a b) :
    1 ≤ a ∧ a ≤ MAP_WIDTH - 2 ∧ 1 ≤ b ∧ b ≤ MAP_HEIGHT - 2 := by
  unfold Rect.wf at hr
  unfold Rect.interior at h
  unfold ROOM_MIN_SIZE at hr
  omega

lemma center_in_box (r : Rect) (hr : r.wf) :
    1 ≤ r.center.1 ∧ r.center.1 ≤ MAP_WIDTH - 2 ∧
      1 ≤ r.center.2 ∧ r.center.2 ≤ MAP_HEIGHT - 2 :=
  interior_in_box r hr _ _ (center_mem_interior r hr)

lemma covers_in_box (t : Tunnel) (ht : t.inBox) (a b : Int)
    (h : t.covers a b) :
    1 ≤ a ∧ a ≤ MAP_WIDTH - 2 ∧ 1 ≤ b ∧ b ≤ MAP_HEIGHT - 2 := by
  cases t <;> (unfold Tunnel.inBox at ht; unfold Tunnel.covers at h; omega)

lemma reach_trans {m : GameMap} {p q r : Int × Int}
    (h1 : Reachable m p q) (h2 : Reachable m q r) : Reachable m p r := by
  induction h2 with
  | refl => exact h1
  | step _ hadj hpass ih => exact Reachable.step ih hadj hpass

lemma reach_endpoint {m : GameMap} {p q : Int × Int}
    (hp : (m p.1 p.2).blocked = false) (h : Reachable m p q) :
    (m q.1 q.2).blocked = false := by
  induction h with
  | refl => exact hp
  | step _ _ hpass _ => exact hpass

lemma adjacent_comm {p q : Int × Int} (h : adjacent p q) : adjacent q p := by
  unfold adjacent at *
  omega

lemma reach_symm {m : GameMap} {p q : Int × Int}
    (hp : (m p.1 p.2).blocked = false) (h : Reachable m p q) :
    Reachable m q p := by
  induction h with
  | refl => exact Reachable.refl _
  | step hpq hadj hpass ih =>
      exact reach_trans
        (Reachable.step (Reachable.refl _) (adjacent_comm hadj)
          (reach_endpoint hp hpq))
        ih

lemma reach_mono {m m' : GameMap}
    (hmm : ∀ a b, (m a b).blocked = false → (m' a b).blocked = false)
    {p q : Int × Int} (h : Reachable m p q) : Reachable m' p q := by
  induction h with
  | refl => exact Reachable.refl _
  | step _ hadj hpass ih => exact Reachable.step ih hadj (hmm _ _ hpass)

lemma adjacent_right (x y : Int) : adjacent (x, y) (x + 1, y) := by
  show (x - (x + 1)).natAbs + (y - y).natAbs = 1
  omega

lemma adjacent_down (x y : Int) : adjacent (x, y) (x, y + 1) := by
  show (x - x).natAbs + (y - (y + 1)).natAbs = 1
  omega

lemma reach_hseg_right (m : GameMap) (y x : Int) (n : Nat)
    (h : ∀ t : Int, x ≤ t → t ≤ x + (n : Int) → (m t y).blocked = false) :
    Reachable m (x, y) (x + (n : Int), y) := by
  induction n with
  | zero =>
      have e : x + ((0 : Nat) : Int) = x := by simp
      rw [e]
      exact Reachable.refl _
  | succ k ih =>
      have e : x + (((k + 1 : Nat)) : Int) = x + (k : Int) + 1 := by
        push_cast
        ring
      rw [e]
      have hbase := ih fun t ht1 ht2 => h t ht1 (by push_cast; omega)
      refine Reachable.step hbase (adjacent_right _ _) ?_
      exact h (x + (k : Int) + 1) (by omega) (by push_cast; omega)

lemma reach_vseg_down (m : GameMap) (x y : Int) (n : Nat)
    (h : ∀ t : Int, y ≤ t → t ≤ y + (n : Int) → (m x t).blocked = false) :
    Reachable m (x, y) (x, y + (n : Int)) := by
  induction n with
  | zero =>
      have e : y + ((0 : Nat) : Int) = y := by simp
      rw [e]
      exact Reachable.refl _
  | succ k ih =>
      have e : y + (((k + 1 : Nat)) : Int) = y + (k : Int) + 1 := by
        push_cast
        ring
      rw [e]
      have hbase := ih fun t ht1 ht2 => h t ht1 (by push_cast; omega)
      refine Reachable.step hbase (adjacent_down _ _) ?_
      exact h (y + (k : Int) + 1) (by omega) (by push_cast; omega)

lemma reach_horizontal (m : GameMap) (y xa xb : Int)
    (h : ∀ t : Int, min xa xb ≤ t → t ≤ max xa xb → (m t y).blocked = false) :
    Reachable m (xa, y) (xb, y) := by
  rcases le_total xa xb with hle | hle
  · rw [min_eq_left hle, max_eq_right hle] at h
    have hn : xb = xa + (((xb - xa).toNat : Nat) : Int) := by omega
    rw [hn]
    exact reach_hseg_right m y xa _ fun t ht1 ht2 => h t ht1 (by omega)
  · rw [min_eq_right hle, max_eq_left hle] at h
    have hr : Reachable m (xb, y) (xa, y) := by
      have hn : xa = xb + (((xa - xb).toNat : Nat) : Int) := by omega
      rw [hn]
      exact reach_hseg_right m y xb _ fun t ht1 ht2 => h t ht1 (by omega)
    exact reach_symm (h xb le_rfl hle) hr

lemma reach_vertical (m : GameMap) (x ya yb : Int)
    (h : ∀ t : Int, min ya yb ≤ t → t ≤ max ya yb → (m x t).blocked = false) :
    Reachable m (x, ya) (x, yb) := by
  rcases le_total ya yb with hle | hle
  · rw [min_eq_left hle, max_eq_right hle] at h
    have hn : yb = ya + (((yb - ya).toNat : Nat) : Int) := by omega
    rw [hn]
    exact reach_vseg_down m x ya _ fun t ht1 ht2 => h t ht1 (by omega)
  · rw [min_eq_right hle, max_eq_left hle] at h
    have hr : Reachable m (x, yb) (x, ya) := by
      have hn : ya = yb + (((ya - yb).toNat : Nat) : Int) := by omega
      rw [hn]
      exact reach_vseg_down m x yb _ fun t ht1 ht2 => h t ht1 (by omega)
    exact reach_symm (h yb le_rfl hle) hr

lemma step_failed (s : GenState) (c : RoomChoice)
    (h : (s.rooms.any fun o => (Rect.new c.x c.y c.w c.h).intersects_with o) = true) :
    make_map_step s c = s := by
  simp [make_map_step, h]

lemma step_first (s : GenState) (c : RoomChoice)
    (hf : (s.rooms.any fun o => (Rect.new c.x c.y c.w c.h).intersects_with o) = false)
    (hl : s.rooms.getLast? = none) :
    make_map_step s c =
      { map := create_room (Rect.new c.x c.y c.w c.h) s.map,
        rooms := s.rooms ++ [Rect.new c.x c.y c.w c.h],
        starting_position := ((Rect.new c.x c.y c.w c.h).center.1,
          (Rect.new c.x c.y c.w c.h).center.2),
        tunnels := s.tunnels } := by
  simp [make_map_step, hf, hl]

lemma step_prev_true (s : GenState) (c : RoomChoice) (prev : Rect)
    (hf : (s.rooms.any fun o => (Rect.new c.x c.y c.w c.h).intersects_with o) = false)
    (hl : s.rooms.getLast? = some prev) (hcoin : c.coin = true) :
    make_map_step s c =
      { map := create_v_tunnel prev.center.2 (Rect.new c.x c.y c.w c.h).center.2
                 (Rect.new c.x c.y c.w c.h).center.1
                 (create_h_tunnel prev.center.1 (Rect.new c.x c.y c.w c.h).center.1
                   prev.center.2
                   (create_room (Rect.new c.x c.y c.w c.h) s.map)),
        rooms := s.rooms ++ [Rect.new c.x c.y c.w c.h],
        starting_position := s.starting_position,
        tunnels := s.tunnels ++
          [Tunnel.h prev.center.1 (Rect.new c.x c.y c.w c.h).center.1 prev.center.2,
           Tunnel.v prev.center.2 (Rect.new c.x c.y c.w c.h).center.2
             (Rect.new c.x c.y c.w c.h).center.1] } := by
  simp [make_map_step, hf, hl, hcoin]

lemma step_prev_false (s : GenState) (c : RoomChoice) (prev : Rect)
    (hf : (s.rooms.any fun o => (Rect.new c.x c.y c.w c.h).intersects_with o) = false)
    (hl : s.rooms.getLast? = some prev) (hcoin : c.coin = false) :
    make_map_step s c =
      { map := create_h_tunnel prev.center.1 (Rect.new c.x c.y c.w c.h).center.1
                 (Rect.new c.x c.y c.w c.h).center.2
                 (create_v_tunnel prev.center.2 (Rect.new c.x c.y c.w c.h).center.2
                   prev.center.1
                   (create_room (Rect.new c.x c.y c.w c.h) s.map)),
        rooms := s.rooms ++ [Rect.new c.x c.y c.w c.h],
        starting_position := s.starting_position,
        tunnels := s.tunnels ++
          [Tunnel.v prev.center.2 (Rect.new c.x c.y c.w c.h).center.2 prev.center.1,
           Tunnel.h prev.center.1 (Rect.new c.x c.y c.w c.h).center.1
             (Rect.new c.x c.y c.w c.h).center.2] } := by
  simp [make_map_step, hf, hl, hcoin]

lemma carvedAt_append (rooms : List Rect) (tunnels : List Tunnel) (new : Rect)
    (ts : List Tunnel) (a b : Int) :
    carvedAt (rooms ++ [new]) (tunnels ++ ts) a b ↔
      carvedAt rooms tunnels a b ∨ new.interior a b ∨ ∃ t ∈ ts, t.covers a b := by
  unfold carvedAt
  simp only [List.mem_append, List.mem_singleton]
  constructor
  · rintro (⟨r, hr | rfl, hri⟩ | ⟨t, ht | ht, htc⟩)
    · exact Or.inl (Or.inl ⟨r, hr, hri⟩)
    · exact Or.inr (Or.inl hri)
    · exact Or.inl (Or.inr ⟨t, ht, htc⟩)
    · exact Or.inr (Or.inr ⟨t, ht, htc⟩)
  · rintro ((⟨r, hr, hri⟩ | ⟨t, ht, htc⟩) | hin | ⟨t, ht, htc⟩)
    · exact Or.inl ⟨r, Or.inl hr, hri⟩
    · exact Or.inr ⟨t, Or.inl ht, htc⟩
    · exact Or.inl ⟨new, Or.inr rfl, hin⟩
    · exact Or.inr ⟨t, Or.inr ht, htc⟩

lemma light_carve (s : GenState) (new : Rect) (t1 t2 : Tunnel) (m2 : GameMap)
    (hs : LightInv s)
    (hsne : s.rooms ≠ [])
    (hno : ∀ o ∈ s.rooms, new.intersects_with o = false)
    (hpos : ∀ a b, (new.interior a b ∨ t1.covers a b ∨ t2.covers a b) →
      m2 a b = Tile.empty)
    (hkeep : ∀ a b, ¬ (new.interior a b ∨ t1.covers a b ∨ t2.covers a b) →
      m2 a b = s.map a b) :
    LightInv
      { map := m2, rooms := s.rooms ++ [new],
        starting_position := s.starting_position,
        tunnels := s.tunnels ++ [t1, t2] } := by
  constructor
  · intro a b hc
    dsimp only at hc ⊢
    rw [carvedAt_append] at hc
    rcases hc with hold | hin | ⟨t, ht, htc⟩
    · by_cases hnew : new.interior a b ∨ t1.covers a b ∨ t2.covers a b
      · exact hpos a b hnew
      · rw [hkeep a b hnew]
        exact hs.carved_empty a b hold
    · exact hpos a b (Or.inl hin)
    · simp only [List.mem_cons, List.mem_singleton, List.not_mem_nil, or_false] at ht
      rcases ht with rfl | rfl
      · exact hpos a b (Or.inr (Or.inl htc))
      · exact hpos a b (Or.inr (Or.inr htc))
  · intro a b hc
    dsimp only at hc ⊢
    rw [carvedAt_append] at hc
    have hold : ¬ carvedAt s.rooms s.tunnels a b := fun h => hc (Or.inl h)
    have hnew : ¬ (new.interior a b ∨ t1.covers a b ∨ t2.covers a b) := by
      rintro (h | h | h)
      · exact hc (Or.inr (Or.inl h))
      · exact hc (Or.inr (Or.inr ⟨t1, by simp, h⟩))
      · exact hc (Or.inr (Or.inr ⟨t2, by simp, h⟩))
    rw [hkeep a b hnew]
    exact hs.uncarved_wall a b hold
  · dsimp only
    rw [List.pairwise_append]
    refine ⟨hs.pairwise_ok, List.pairwise_singleton _ _, ?_⟩
    intro r1 hr1 r2 hr2
    simp only [List.mem_singleton] at hr2
    subst hr2
    rw [intersects_with_comm]
    exact hno r1 hr1
  · intro r hr
    dsimp only at hr ⊢
    rw [List.head?_append_of_ne_nil _ hsne] at hr
    exact hs.spawn_eq r hr
  · intro h
    dsimp only at h
    simp at h

lemma light_first (c : RoomChoice) :
    LightInv
      { map := create_room (Rect.new c.x c.y c.w c.h) initState.map,
        rooms := initState.rooms ++ [Rect.new c.x c.y c.w c.h],
        starting_position := ((Rect.new c.x c.y c.w c.h).center.1,
          (Rect.new c.x c.y c.w c.h).center.2),
        tunnels := initState.tunnels } := by
  constructor
  · intro a b hc
    dsimp only [initState] at hc ⊢
    unfold carvedAt at hc
    simp only [List.nil_append, List.mem_singleton, List.not_mem_nil, false_and,
      exists_false, or_false, exists_eq_left] at hc
    rw [create_room_apply, if_pos hc]
  · intro a b hc
    dsimp only [initState] at hc ⊢
    unfold carvedAt at hc
    simp only [List.nil_append, List.mem_singleton, List.not_mem_nil, false_and,
      exists_false, or_false, exists_eq_left] at hc
    rw [create_room_apply, if_neg hc]
  · dsimp only [initState]
    simp
  · intro r hr
    dsimp only [initState] at hr ⊢
    simp only [List.nil_append, List.head?_cons, Option.some.injEq] at hr
    subst hr
    exact Prod.mk.eta
  · intro h
    dsimp only [initState] at h
    simp at h

lemma light_step (s : GenState) (c : RoomChoice) (hs : LightInv s) :
    LightInv (make_map_step s c) := by
  by_cases hfail :
      (s.rooms.any fun o => (Rect.new c.x c.y c.w c.h).intersects_with o) = true
  · rw [step_failed s c hfail]
    exact hs
  · rw [Bool.not_eq_true] at hfail
    have hno : ∀ o ∈ s.rooms,
        (Rect.new c.x c.y c.w c.h).intersects_with o = false := by
      rw [List.any_eq_false] at hfail
      intro o ho
      exact Bool.eq_false_iff.mpr (hfail o ho)
    rcases hl : s.rooms.getLast? with _ | prev
    · have hempty : s.rooms = [] := List.getLast?_eq_none_iff.mp hl
      have hinit := hs.empty_start hempty
      subst hinit
      rw [step_first initState c hfail hl]
      exact light_first c
    · have hsne : s.rooms ≠ [] := by
        intro h
        rw [h] at hl
        simp at hl
      rcases hcoin : c.coin with _ | _
      · rw [step_prev_false s c prev hfail hl hcoin]
        apply light_carve s (Rect.new c.x c.y c.w c.h) _ _ _ hs hsne hno
        · intro a b hcov
          rw [create_h_tunnel_apply, create_v_tunnel_apply, create_room_apply]
          simp only [Tunnel.covers] at hcov
          split_ifs with h1 h2 h3 <;> try rfl
          rcases hcov with h | h | h
          · exact absurd h h3
          · exact absurd h h2
          · exact absurd h h1
        · intro a b hcov
          simp only [Tunnel.covers] at hcov
          rw [create_h_tunnel_apply,
            if_neg fun hx => hcov (Or.inr (Or.inr hx)),
            create_v_tunnel_apply,
            if_neg fun hx => hcov (Or.inr (Or.inl hx)),
            create_room_apply,
            if_neg fun hx => hcov (Or.inl hx)]
      · rw [step_prev_true s c prev hfail hl hcoin]
        apply light_carve s (Rect.new c.x c.y c.w c.h) _ _ _ hs hsne hno
        · intro a b hcov
          rw [create_v_tunnel_apply, create_h_tunnel_apply, create_room_apply]
          simp only [Tunnel.covers] at hcov
          split_ifs with h1 h2 h3 <;> try rfl
          rcases hcov with h | h | h
          · exact absurd h h3
          · exact absurd h h2
          · exact absurd h h1
        · intro a b hcov
          simp only [Tunnel.covers] at hcov
          rw [create_v_tunnel_apply,
            if_neg fun hx => hcov (Or.inr (Or.inr hx)),
            create_h_tunnel_apply,
            if_neg fun hx => hcov (Or.inr (Or.inl hx)),
            create_room_apply,
            if_neg fun hx => hcov (Or.inl hx)]

lemma full_carve (s : GenState) (new prev : Rect) (t1 t2 : Tunnel) (m2 : GameMap)
    (hs : FullInv s)
    (hlight2 : LightInv
      { map := m2, rooms := s.rooms ++ [new],
        starting_position := s.starting_position,
        tunnels := s.tunnels ++ [t1, t2] })
    (hprev : prev ∈ s.rooms)
    (hsne : s.rooms ≠ [])
    (hwfnew : new.wf)
    (ht1 : t1.inBox) (ht2 : t2.inBox)
    (hkeep : ∀ a b, (s.map a b).blocked = false → (m2 a b).blocked = false)
    (hpath : Reachable m2 prev.center new.center) :
    FullInv
      { map := m2, rooms := s.rooms ++ [new],
        starting_position := s.starting_position,
        tunnels := s.tunnels ++ [t1, t2] } := by
  constructor
  · exact hlight2
  · intro r hr
    dsimp only at hr
    rcases List.mem_append.mp hr with h | h
    · exact hs.wf_rooms r h
    · simp only [List.mem_singleton] at h
      subst h
      exact hwfnew
  · intro t ht
    dsimp only at ht
    rcases List.mem_append.mp ht with h | h
    · exact hs.tunnels_box t h
    · simp only [List.mem_cons, List.mem_singleton, List.not_mem_nil,
        or_false] at h
      rcases h with rfl | rfl
      · exact ht1
      · exact ht2
  · intro _
    dsimp only
    exact hkeep _ _ (hs.spawn_pass hsne)
  · intro r hr
    dsimp only at hr ⊢
    rcases List.mem_append.mp hr with h | h
    · exact reach_mono hkeep (hs.reach r h)
    · simp only [List.mem_singleton] at h
      subst h
      exact reach_trans (reach_mono hkeep (hs.reach prev hprev)) hpath

lemma full_first (c : RoomChoice) (hwfnew : (Rect.new c.x c.y c.w c.h).wf) :
    FullInv
      { map := create_room (Rect.new c.x c.y c.w c.h) initState.map,
        rooms := initState.rooms ++ [Rect.new c.x c.y c.w c.h],
        starting_position := ((Rect.new c.x c.y c.w c.h).center.1,
          (Rect.new c.x c.y c.w c.h).center.2),
        tunnels := initState.tunnels } := by
  constructor
  · exact light_first c
  · intro r hr
    dsimp only [initState] at hr
    simp only [List.nil_append, List.mem_singleton] at hr
    subst hr
    exact hwfnew
  · intro t ht
    dsimp only [initState] at ht
    simp at ht
  · intro _
    show (create_room (Rect.new c.x c.y c.w c.h) initState.map
      (Rect.new c.x c.y c.w c.h).center.1
      (Rect.new c.x c.y c.w c.h).center.2).blocked = false
    rw [create_room_apply, if_pos (center_mem_interior _ hwfnew)]
    rfl
  · intro r hr
    dsimp only [initState] at hr ⊢
    simp only [List.nil_append, List.mem_singleton] at hr
    subst hr
    rw [Prod.mk.eta]
    exact Reachable.refl _

lemma full_step (s : GenState) (c : RoomChoice) (hs : FullInv s) (hc : c.valid) :
    FullInv (make_map_step s c) := by
  have hlight := light_step s c hs.light
  by_cases hfail :
      (s.rooms.any fun o => (Rect.new c.x c.y c.w c.h).intersects_with o) = true
  · rw [step_failed s c hfail]
    exact hs
  · rw [Bool.not_eq_true] at hfail
    have hwfnew := valid_new_wf c hc
    rcases hl : s.rooms.getLast? with _ | prev
    · have hempty : s.rooms = [] := List.getLast?_eq_none_iff.mp hl
      have hinit := hs.light.empty_start hempty
      subst hinit
      rw [step_first initState c hfail hl]
      exact full_first c hwfnew
    · have hprev : prev ∈ s.rooms := List.mem_of_mem_getLast? hl
      have hsne : s.rooms ≠ [] := by
        intro h
        rw [h] at hl
        simp at hl
      have hwfprev := hs.wf_rooms prev hprev
      obtain ⟨hpx1, hpx2, hpy1, hpy2⟩ := center_in_box prev hwfprev
      obtain ⟨hnx1, hnx2, hny1, hny2⟩ := center_in_box _ hwfnew
      rcases hcoin : c.coin with _ | _
      · rw [step_prev_false s c prev hfail hl hcoin] at hlight ⊢
        have hkeep : ∀ a b, (s.map a b).blocked = false →
            ((create_h_tunnel prev.center.1 (Rect.new c.x c.y c.w c.h).center.1
              (Rect.new c.x c.y c.w c.h).center.2
              (create_v_tunnel prev.center.2 (Rect.new c.x c.y c.w c.h).center.2
                prev.center.1
                (create_room (Rect.new c.x c.y c.w c.h) s.map))) a b).blocked
              = false := by
          intro a b hab
          rw [create_h_tunnel_apply, create_v_tunnel_apply, create_room_apply]
          split_ifs <;> first | rfl | exact hab
        apply full_carve s _ prev _ _ _ hs hlight hprev hsne hwfnew
        · show (Tunnel.v prev.center.2 (Rect.new c.x c.y c.w c.h).center.2
            prev.center.1).inBox
          unfold Tunnel.inBox
          omega
        · show (Tunnel.h prev.center.1 (Rect.new c.x c.y c.w c.h).center.1
            (Rect.new c.x c.y c.w c.h).center.2).inBox
          unfold Tunnel.inBox
          omega
        · exact hkeep
        · have hpassV : ∀ t : Int,
              min prev.center.2 (Rect.new c.x c.y c.w c.h).center.2 ≤ t →
              t ≤ max prev.center.2 (Rect.new c.x c.y c.w c.h).center.2 →
              ((create_h_tunnel prev.center.1 (Rect.new c.x c.y c.w c.h).center.1
                (Rect.new c.x c.y c.w c.h).center.2
                (create_v_tunnel prev.center.2
                  (Rect.new c.x c.y c.w c.h).center.2 prev.center.1
                  (create_room (Rect.new c.x c.y c.w c.h) s.map)))
                prev.center.1 t).blocked = false := by
            intro t h1 h2
            rw [create_h_tunnel_apply, create_v_tunnel_apply, create_room_apply]
            split_ifs with hh1 hh2 hh3 <;> try rfl
            exact absurd ⟨rfl, h1, h2⟩ hh2
          have hpassH : ∀ t : Int,
              min prev.center.1 (Rect.new c.x c.y c.w c.h).center.1 ≤ t →
              t ≤ max prev.center.1 (Rect.new c.x c.y c.w c.h).center.1 →
              ((create_h_tunnel prev.center.1 (Rect.new c.x c.y c.w c.h).center.1
                (Rect.new c.x c.y c.w c.h).center.2
                (create_v_tunnel prev.center.2
                  (Rect.new c.x c.y c.w c.h).center.2 prev.center.1
                  (create_room (Rect.new c.x c.y c.w c.h) s.map)))
                t (Rect.new c.x c.y c.w c.h).center.2).blocked = false := by
            intro t h1 h2
            rw [create_h_tunnel_apply, create_v_tunnel_apply, create_room_apply]
            split_ifs with hh1 hh2 hh3 <;> try rfl
            exact absurd ⟨h1, h2, rfl⟩ hh1
          have path1 := reach_vertical _ prev.center.1 prev.center.2
            (Rect.new c.x c.y c.w c.h).center.2 hpassV
          have path2 := reach_horizontal _ (Rect.new c.x c.y c.w c.h).center.2
            prev.center.1 (Rect.new c.x c.y c.w c.h).center.1 hpassH
          have etot := reach_trans path1 path2
          rw [Prod.mk.eta, Prod.mk.eta] at etot
          exact etot
      · rw [step_prev_true s c prev hfail hl hcoin] at hlight ⊢
        have hkeep : ∀ a b, (s.map a b).blocked = false →
            ((create_v_tunnel prev.center.2 (Rect.new c.x c.y c.w c.h).center.2
              (Rect.new c.x c.y c.w c.h).center.1
              (create_h_tunnel prev.center.1 (Rect.new c.x c.y c.w c.h).center.1
                prev.center.2
                (create_room (Rect.new c.x c.y c.w c.h) s.map))) a b).blocked
              = false := by
          intro a b hab
          rw [create_v_tunnel_apply, create_h_tunnel_apply, create_room_apply]
          split_ifs <;> first | rfl | exact hab
        apply full_carve s _ prev _ _ _ hs hlight hprev hsne hwfnew
        · show (Tunnel.h prev.center.1 (Rect.new c.x c.y c.w c.h).center.1
            prev.center.2).inBox
          unfold Tunnel.inBox
          omega
        · show (Tunnel.v prev.center.2 (Rect.new c.x c.y c.w c.h).center.2
            (Rect.new c.x c.y c.w c.h).center.1).inBox
          unfold Tunnel.inBox
          omega
        · exact hkeep
        · have hpassH : ∀ t : Int,
              min prev.center.1 (Rect.new c.x c.y c.w c.h).center.1 ≤ t →
              t ≤ max prev.center.1 (Rect.new c.x c.y c.w c.h).center.1 →
              ((create_v_tunnel prev.center.2
                (Rect.new c.x c.y c.w c.h).center.2
                (Rect.new c.x c.y c.w c.h).center.1
                (create_h_tunnel prev.center.1
                  (Rect.new c.x c.y c.w c.h).center.1 prev.center.2
                  (create_room (Rect.new c.x c.y c.w c.h) s.map)))
                t prev.center.2).blocked = false := by
            intro t h1 h2
            rw [create_v_tunnel_apply, create_h_tunnel_apply, create_room_apply]
            split_ifs with hh1 hh2 hh3 <;> try rfl
            exact absurd ⟨h1, h2, rfl⟩ hh2
          have hpassV : ∀ t : Int,
              min prev.center.2 (Rect.new c.x c.y c.w c.h).center.2 ≤ t →
              t ≤ max prev.center.2 (Rect.new c.x c.y c.w c.h).center.2 →
              ((create_v_tunnel prev.center.2
                (Rect.new c.x c.y c.w c.h).center.2
                (Rect.new c.x c.y c.w c.h).center.1
                (create_h_tunnel prev.center.1
                  (Rect.new c.x c.y c.w c.h).center.1 prev.center.2
                  (create_room (Rect.new c.x c.y c.w c.h) s.map)))
                (Rect.new c.x c.y c.w c.h).center.1 t).blocked = false := by
            intro t h1 h2
            rw [create_v_tunnel_apply, create_h_tunnel_apply, create_room_apply]
            split_ifs with hh1 hh2 hh3 <;> try rfl
            exact absurd ⟨rfl, h1, h2⟩ hh1
          have path1 := reach_horizontal _ prev.center.2 prev.center.1
            (Rect.new c.x c.y c.w c.h).center.1 hpassH
          have path2 := reach_vertical _ (Rect.new c.x c.y c.w c.h).center.1
            prev.center.2 (Rect.new c.x c.y c.w c.h).center.2 hpassV
          have etot := reach_trans path1 path2
          rw [Prod.mk.eta, Prod.mk.eta] at etot
          exact etot

lemma initState_light : LightInv initState := by
  constructor
  · intro a b hc
    unfold carvedAt initState at hc
    simp at hc
  · intro a b _
    rfl
  · simp [initState]
  · intro r hr
    simp [initState] at hr
  · intro _
    rfl

lemma initState_full : FullInv initState := by
  constructor
  · exact initState_light
  · intro r hr
    simp [initState] at hr
  · intro t ht
    simp [initState] at ht
  · intro h
    exact absurd rfl h
  · intro r hr
    simp [initState] at hr

lemma make_map_light (cs : List RoomChoice) : LightInv (make_map cs) := by
  unfold make_map
  have aux : ∀ l : List RoomChoice, ∀ s : GenState, LightInv s →
      LightInv (l.foldl make_map_step s) := by
    intro l
    induction l with
    | nil => intro s hs; exact hs
    | cons c cs2 ih =>
        intro s hs
        exact ih _ (light_step s c hs)
  exact aux cs initState initState_light

lemma make_map_full (cs : List RoomChoice) (hv : ∀ c ∈ cs, c.valid) :
    FullInv (make_map cs) := by
  unfold make_map
  have aux : ∀ l : List RoomChoice, (∀ c ∈ l, c.valid) → ∀ s : GenState,
      FullInv s → FullInv (l.foldl make_map_step s) := by
    intro l
    induction l with
    | nil => intro _ s hs; exact hs
    | cons c cs2 ih =>
        intro hv2 s hs
        exact ih (fun c2 h2 => hv2 c2 (List.mem_cons_of_mem _ h2)) _
          (full_step s c hs (hv2 c (List.mem_cons_self _ _)))
  exact aux cs hv initState initState_full

lemma blocked_false_in_box (s : GenState) (hs : FullInv s) (a b : Int)
    (h : (s.map a b).blocked = false) :
    1 ≤ a ∧ a ≤ MAP_WIDTH - 2 ∧ 1 ≤ b ∧ b ≤ MAP_HEIGHT - 2 := by
  by_cases hc : carvedAt s.rooms s.tunnels a b
  · unfold carvedAt at hc
    rcases hc with ⟨r, hr, hri⟩ | ⟨t, ht, htc⟩
    · exact interior_in_box r (hs.wf_rooms r hr) a b hri
    · exact covers_in_box t (hs.tunnels_box t ht) a b htc
  · rw [hs.light.uncarved_wall a b hc] at h
    exact absurd h (by simp [Tile.wall])

/-- C1: for every dungeon `make_map` can return (any list of in-range
random draws) in which at least one room was accepted, the spawn tile
(the first accepted room's center) is passable and every accepted
room's center is reachable from the spawn point by a path of passable
tiles. -/
theorem make_map_connected (cs : List RoomChoice) (hv : ∀ c ∈ cs, c.valid)
    (r : Rect) (hr : r ∈ (make_map cs).rooms) :
    ((make_map cs).map (make_map cs).starting_position.1
        (make_map cs).starting_position.2).blocked = false ∧
      Reachable (make_map cs).map (make_map cs).starting_position r.center := by
  have hs := make_map_full cs hv
  have hne : (make_map cs).rooms ≠ [] := by
    intro h
    rw [h] at hr
    simp at hr
  exact ⟨hs.spawn_pass hne, hs.reach r hr⟩

/-- witness for C1 on a concrete two-room draw list -/
theorem make_map_connected_witness :
    (∀ c ∈ demoChoices, c.valid) ∧
      (Rect.new 0 0 6 6 ∈ (make_map demoChoices).rooms) ∧
      (((make_map demoChoices).map (make_map demoChoices).starting_position.1
          (make_map demoChoices).starting_position.2).blocked = false ∧
        Reachable (make_map demoChoices).map
          (make_map demoChoices).starting_position (Rect.new 0 0 6 6).center) :=
  ⟨by decide, by decide,
    make_map_connected demoChoices (by decide) (Rect.new 0 0 6 6) (by decide)⟩

/-- C2: no two distinct accepted rooms of any generated dungeon
intersect, edge-touching included: `intersects_with` returns `false`
on every pair of distinct accepted rooms. -/
theorem make_map_rooms_disjoint (cs : List RoomChoice)
    (i j : Fin (make_map cs).rooms.length) (hij : i ≠ j) :
    ((make_map cs).rooms.get i).intersects_with ((make_map cs).rooms.get j)
      = false := by
  have hp := (make_map_light cs).pairwise_ok
  rw [List.pairwise_iff_get] at hp
  rcases lt_trichotomy i j with h | h | h
  · exact hp i j h
  · exact absurd h hij
  · rw [intersects_with_comm]
    exact hp j i h

/-- witness for C2 on a concrete two-room draw list -/
theorem make_map_rooms_disjoint_witness :
    ((make_map demoChoices).rooms.get
        ⟨0, by decide⟩).intersects_with
      ((make_map demoChoices).rooms.get ⟨1, by decide⟩) = false :=
  make_map_rooms_disjoint demoChoices ⟨0, by decide⟩ ⟨1, by decide⟩ (by decide)

/-- C3: in every generated dungeon, accepted rooms' interior cells are
passable and sight-open; every in-bounds cell in no accepted room's
interior and on no carved tunnel segment is still a blocking,
sight-blocking wall; and no carved (passable) cell touches the outer
border of the grid. -/
theorem make_map_carving (cs : List RoomChoice) (hv : ∀ c ∈ cs, c.valid) :
    (∀ r ∈ (make_map cs).rooms, ∀ a b : Int, r.interior a b →
        ((make_map cs).map a b).blocked = false ∧
          ((make_map cs).map a b).block_sight = false) ∧
    (∀ a b : Int, inBounds a b →
        (¬ ∃ r ∈ (make_map cs).rooms, r.interior a b) →
        (¬ ∃ t ∈ (make_map cs).tunnels, t.covers a b) →
        ((make_map cs).map a b).blocked = true ∧
          ((make_map cs).map a b).block_sight = true) ∧
    (∀ a b : Int, ((make_map cs).map a b).blocked = false →
        1 ≤ a ∧ a ≤ MAP_WIDTH - 2 ∧ 1 ≤ b ∧ b ≤ MAP_HEIGHT - 2) := by
  have hs := make_map_full cs hv
  refine ⟨?_, ?_, ?_⟩
  · intro r hr a b hi
    have he := hs.light.carved_empty a b (Or.inl ⟨r, hr, hi⟩)
    rw [he]
    exact ⟨rfl, rfl⟩
  · intro a b _ h1 h2
    have hnc : ¬ carvedAt (make_map cs).rooms (make_map cs).tunnels a b := by
      rintro (h | h)
      · exact h1 h
      · exact h2 h
    rw [hs.light.uncarved_wall a b hnc]
    exact ⟨rfl, rfl⟩
  · exact fun a b h => blocked_false_in_box _ hs a b h

/-- witness for C3 on a concrete two-room draw list -/
theorem make_map_carving_witness :
    (∀ c ∈ demoChoices, c.valid) ∧
    ((∀ r ∈ (make_map demoChoices).rooms, ∀ a b : Int, r.interior a b →
        ((make_map demoChoices).map a b).blocked = false ∧
          ((make_map demoChoices).map a b).block_sight = false) ∧
    (∀ a b : Int, inBounds a b →
        (¬ ∃ r ∈ (make_map demoChoices).rooms, r.interior a b) →
        (¬ ∃ t ∈ (make_map demoChoices).tunnels, t.covers a b) →
        ((make_map demoChoices).map a b).blocked = true ∧
          ((make_map demoChoices).map a b).block_sight = true) ∧
    (∀ a b : Int, ((make_map demoChoices).map a b).blocked = false →
        1 ≤ a ∧ a ≤ MAP_WIDTH - 2 ∧ 1 ≤ b ∧ b ≤ MAP_HEIGHT - 2)) :=
  ⟨by decide, make_map_carving demoChoices (by decide)⟩

/-- C4: whenever the destination tile is in bounds, `move_by` commits
the move exactly when the destination's `blocked` flag is false, and
otherwise leaves the entity in place; either way it returns normally
(no abort), so walking into a wall is a silent no-op. -/
theorem move_by_no_error (o : Object) (dx dy : Int) (m : GameMap)
    (h : inBounds (o.x + dx) (o.y + dy)) :
    ((m (o.x + dx) (o.y + dy)).blocked = false →
      o.move_by dx dy m = some { o with x := o.x + dx, y := o.y + dy }) ∧
    ((m (o.x + dx) (o.y + dy)).blocked = true →
      o.move_by dx dy m = some o) := by
  unfold Object.move_by
  rw [if_pos h]
  constructor
  · intro hb
    rw [if_neg]
    rw [hb]
    simp
  · intro hb
    rw [if_pos hb]

/-- witness for C4: a concrete in-bounds step on the demo map -/
theorem move_by_no_error_witness :
    inBounds (demoObject.x + 1) (demoObject.y + 0) ∧
    (((demoMap (demoObject.x + 1) (demoObject.y + 0)).blocked = false →
      demoObject.move_by 1 0 demoMap =
        some { demoObject with x := demoObject.x + 1, y := demoObject.y + 0 }) ∧
    ((demoMap (demoObject.x + 1) (demoObject.y + 0)).blocked = true →
      demoObject.move_by 1 0 demoMap = some demoObject)) :=
  ⟨by decide, move_by_no_error demoObject 1 0 demoMap (by decide)⟩

/-- C5: on any generated dungeon, an entity standing on an in-bounds
passable tile that takes any single-step move ends on an in-bounds
passable tile (either unchanged or the unblocked destination), and the
bounds check inside `move_by` never aborts. -/
theorem move_by_preserves_valid (cs : List RoomChoice)
    (hv : ∀ c ∈ cs, c.valid) (o : Object) (dx dy : Int)
    (hpos : inBounds o.x o.y)
    (hfree : ((make_map cs).map o.x o.y).blocked = false)
    (hstep : dx.natAbs + dy.natAbs = 1) :
    ∃ o2 : Object, o.move_by dx dy (make_map cs).map = some o2 ∧
      inBounds o2.x o2.y ∧ ((make_map cs).map o2.x o2.y).blocked = false := by
  have hs := make_map_full cs hv
  have hbox := blocked_false_in_box _ hs o.x o.y hfree
  have hdest : inBounds (o.x + dx) (o.y + dy) := by
    unfold inBounds
    unfold MAP_WIDTH MAP_HEIGHT at hbox ⊢
    omega
  unfold Object.move_by
  rw [if_pos hdest]
  by_cases hb : ((make_map cs).map (o.x + dx) (o.y + dy)).blocked = true
  · rw [if_pos hb]
    exact ⟨o, rfl, hpos, hfree⟩
  · rw [if_neg hb]
    rw [Bool.not_eq_true] at hb
    exact ⟨_, rfl, hdest, hb⟩

/-- witness for C5: a concrete single step from the demo spawn tile -/
theorem move_by_preserves_valid_witness :
    (∀ c ∈ demoChoices, c.valid) ∧ inBounds demoObject.x demoObject.y ∧
      ((make_map demoChoices).map demoObject.x demoObject.y).blocked = false ∧
      ∃ o2 : Object, demoObject.move_by 1 0 (make_map demoChoices).map = some o2 ∧
        inBounds o2.x o2.y ∧
        ((make_map demoChoices).map o2.x o2.y).blocked = false :=
  ⟨by decide, by decide, by decide,
    move_by_preserves_valid demoChoices (by decide) demoObject 1 0
      (by decide) (by decide) (by decide)⟩

/-- C6: `intersects_with` returns true exactly when the closed
rectangles overlap on both axes, touching edges included. -/
theorem intersects_with_spec (a b : Rect) :
    a.intersects_with b = true ↔
      (a.x1 ≤ b.x2 ∧ a.x2 ≥ b.x1 ∧ a.y1 ≤ b.y2 ∧ a.y2 ≥ b.y1) :=
  intersects_true_iff a b

/-- C7: `create_h_tunnel x1 x2 y` sets exactly the tiles between
`min x1 x2` and `max x1 x2` (both endpoints included) in row `y` to
`Tile.empty` and leaves every other tile unchanged; `create_v_tunnel`
does the same along the vertical axis. -/
theorem tunnel_carving_exact (p q r : Int) (m : GameMap) (a b : Int) :
    create_h_tunnel p q r m a b =
      (if min p q ≤ a ∧ a ≤ max p q ∧ b = r then Tile.empty else m a b) ∧
    create_v_tunnel p q r m a b =
      (if a = r ∧ min p q ≤ b ∧ b ≤ max p q then Tile.empty else m a b) :=
  ⟨create_h_tunnel_apply p q r m a b, create_v_tunnel_apply p q r m a b⟩

/-- C8: every tile of every grid `make_map` can produce is all-floor or
all-wall: its two flags are either both false or both true, because
every tile write uses the `empty` or `wall` preset. -/
theorem tiles_floor_or_wall (cs : List RoomChoice) (a b : Int) :
    (((make_map cs).map a b).blocked = false ∧
      ((make_map cs).map a b).block_sight = false) ∨
    (((make_map cs).map a b).blocked = true ∧
      ((make_map cs).map a b).block_sight = true) := by
  have hl := make_map_light cs
  by_cases hc : carvedAt (make_map cs).rooms (make_map cs).tunnels a b
  · rw [hl.carved_empty a b hc]
    exact Or.inl ⟨rfl, rfl⟩
  · rw [hl.uncarved_wall a b hc]
    exact Or.inr ⟨rfl, rfl⟩

/-- C9: in each iteration of the main loop, the field of view is
recomputed exactly when the observer's position differs from the
recorded previous-turn position, and on a stationary turn the visible
set is left unchanged. -/
theorem fov_recompute_iff_moved {α : Type} (computeFov : GameMap → Int × Int → α)
    (m : GameMap) (k : KeyAction) (s s2 : LoopState α)
    (recomputed exit2 : Bool)
    (h : loopIter computeFov m k s = some (s2, recomputed, exit2)) :
    (recomputed = true ↔ s.prevPos ≠ (s.player.x, s.player.y)) ∧
    (s.prevPos = (s.player.x, s.player.y) →
      recomputed = false ∧ s2.fov = s.fov) := by
  unfold loopIter at h
  rcases hk : handle_keys k s.player m with _ | ⟨p1, ex⟩
  · rw [hk] at h
    simp at h
  · rw [hk] at h
    simp only [Option.some.injEq, Prod.mk.injEq] at h
    obtain ⟨h1, h2, h3⟩ := h
    subst h2
    subst h1
    constructor
    · simp
    · intro heq
      simp [heq]

/-- witness for C9: a stationary-check iteration on concrete data -/
theorem fov_recompute_iff_moved_witness :
    (true = true ↔ ((0, 0) : Int × Int) ≠ ((3 : Int), (3 : Int))) ∧
    (((0, 0) : Int × Int) = ((3 : Int), (3 : Int)) →
      true = false ∧ (0 : Nat) = 5) := by
  have happ := fov_recompute_iff_moved (fun _ _ => (0 : Nat)) demoMap
    KeyAction.other
    { prevPos := (0, 0), player := demoObject, fov := 5 }
    { prevPos := (3, 3), player := demoObject, fov := 0 } true false (by decide)
  exact happ

/-- C10: when no candidate room is ever accepted, `make_map` returns
spawn point `(0, 0)`: the in-bounds top-left corner of the grid, whose
tile is a blocked, sight-blocking wall. -/
theorem make_map_no_rooms_spawn (cs : List RoomChoice)
    (h : (make_map cs).rooms = []) :
    (make_map cs).starting_position = (0, 0) ∧ inBounds 0 0 ∧
    ((make_map cs).map 0 0).blocked = true ∧
    ((make_map cs).map 0 0).block_sight = true := by
  have hinit := (make_map_light cs).empty_start h
  rw [hinit]
  exact ⟨rfl, by decide, rfl, rfl⟩

/-- witness for C10 on the empty draw list -/
theorem make_map_no_rooms_spawn_witness :
    (make_map []).rooms = [] ∧
    ((make_map []).starting_position = (0, 0) ∧ inBounds 0 0 ∧
      ((make_map []).map 0 0).blocked = true ∧
      ((make_map []).map 0 0).block_sight = true) :=
  ⟨rfl, make_map_no_rooms_spawn [] rfl⟩
